import Mathlib

/-!
Shallow embedding of the streaming batch-construction pipeline of
rs-names2stats2arrow-ipc-stream (src/lib.rs) and proofs about it.

The external world is modelled explicitly:
  * the line source is a list of `Except IoError String` items, mirroring an
    iterator of `Result<String, io::Error>`;
  * filesystem metadata resolution (`std::fs::metadata`, external to the core)
    is a parameter `fs : String → Except IoError Metadata`;
  * a `SystemTime` is a signed count of nanoseconds relative to the Unix epoch.
Machine integers (u32, u64) carry no arithmetic in the core, so they are
modelled as `Nat`; the single cast `as i64` of the mtime seconds is modelled
explicitly with wraparound.
-/

namespace N2S

/-- An I/O error, abstracted to its description. -/
abbrev IoError := String

deriving instance DecidableEq for Except

/-- Mirrors the `FileType` enum of src/lib.rs. -/
inductive FileType
  | dir
  | file
  | symlink
  | unspecified
deriving DecidableEq

/-- Mirrors `FileType::name`. -/
def FileType.name : FileType → String
  | .dir => "dir"
  | .file => "file"
  | .symlink => "symlink"
  | .unspecified => "unspecified"

/-- Model of `std::fs::Metadata` restricted to the queries the program makes:
the file-type predicates, the read-only permission bit, the byte length,
the (fallible) modification time, and the Unix extension fields
mode / nlink / uid / gid.  The modification time, when available, is a signed
count of nanoseconds since the Unix epoch. -/
structure Metadata where
  is_dir : Bool
  is_symlink : Bool
  is_file : Bool
  readonly : Bool
  len : Nat
  modified : Except IoError Int
  mode : Nat
  nlink : Nat
  uid : Nat
  gid : Nat
deriving DecidableEq

/-- Mirrors `FileMeta::file_type` (the if/else-if chain on the file type). -/
def FileMeta.file_type (m : Metadata) : FileType :=
  if m.is_dir then .dir
  else if m.is_symlink then .symlink
  else if m.is_file then .file
  else .unspecified

/-- Mirrors `FileMeta::read_only` (`permissions().readonly()`). -/
def FileMeta.read_only (m : Metadata) : Bool :=
  m.readonly

/-- Arrow data types used by the fixed 9-column schema. -/
inductive DataType
  | utf8
  | boolean
  | uint32
  | uint64
  | timestampSecond
deriving DecidableEq

/-- An Arrow schema field: name, data type, nullability flag. -/
structure Field where
  name : String
  dtype : DataType
  nullable : Bool
deriving DecidableEq

/-- Mirrors the `schema()` function of src/lib.rs. -/
def schema : List Field :=
  [ ⟨"path", DataType.utf8, false⟩,
    ⟨"type", DataType.utf8, false⟩,
    ⟨"read_only", DataType.boolean, false⟩,
    ⟨"mode", DataType.uint32, true⟩,
    ⟨"nlink", DataType.uint64, true⟩,
    ⟨"len", DataType.uint64, false⟩,
    ⟨"uid", DataType.uint32, true⟩,
    ⟨"gid", DataType.uint32, true⟩,
    ⟨"mtime", DataType.timestampSecond, true⟩ ]

/-- Model of the `Builder` struct: nine per-column accumulators.  An Arrow
array builder is modelled as the list of entries appended since the last
finish (a `none` entry is an appended null). -/
structure Builder where
  path : List String
  file_type : List String
  read_only : List Bool
  mode : List (Option Nat)
  nlink : List (Option Nat)
  len : List Nat
  uid : List (Option Nat)
  gid : List (Option Nat)
  mtime : List (Option Int)
deriving DecidableEq

/-- Mirrors `Builder::append_path`. -/
def Builder.append_path (b : Builder) (p : String) : Builder :=
  { b with path := b.path ++ [p] }

/-- Mirrors `Builder::append_type`. -/
def Builder.append_type (b : Builder) (t : String) : Builder :=
  { b with file_type := b.file_type ++ [t] }

/-- Mirrors `Builder::append_read_only`. -/
def Builder.append_read_only (b : Builder) (r : Bool) : Builder :=
  { b with read_only := b.read_only ++ [r] }

/-- Mirrors `Builder::append_mode` (`append_option`). -/
def Builder.append_mode (b : Builder) (m : Option Nat) : Builder :=
  { b with mode := b.mode ++ [m] }

/-- Mirrors `Builder::append_nlink` (`append_option`). -/
def Builder.append_nlink (b : Builder) (l : Option Nat) : Builder :=
  { b with nlink := b.nlink ++ [l] }

/-- Mirrors `Builder::append_len`. -/
def Builder.append_len (b : Builder) (l : Nat) : Builder :=
  { b with len := b.len ++ [l] }

/-- Mirrors `Builder::append_uid` (`append_option`). -/
def Builder.append_uid (b : Builder) (l : Option Nat) : Builder :=
  { b with uid := b.uid ++ [l] }

/-- Mirrors `Builder::append_gid` (`append_option`). -/
def Builder.append_gid (b : Builder) (l : Option Nat) : Builder :=
  { b with gid := b.gid ++ [l] }

/-- Mirrors `Builder::append_mtime` (`append_option`). -/
def Builder.append_mtime (b : Builder) (t : Option Int) : Builder :=
  { b with mtime := b.mtime ++ [t] }

/-- Mirrors `Builder::is_empty`: `self.path.values_slice().is_empty()`.
The values slice of a `StringBuilder` is the byte buffer of all appended
string contents, so it is empty exactly when every appended path string is
empty (appending the empty string contributes no value bytes). -/
def Builder.is_empty (b : Builder) : Bool :=
  b.path.all (fun s => s.isEmpty)

/-- The fresh builder constructed by `lines2batch_iter`. -/
def Builder.new : Builder :=
  ⟨[], [], [], [], [], [], [], [], []⟩

/-- Mirrors the cast `as i64` applied to a `u64` value: reduce modulo 2^64
and reinterpret as a signed two's-complement 64-bit value. -/
def u64_as_i64 (n : Nat) : Int :=
  if n % 2 ^ 64 < 2 ^ 63 then ((n % 2 ^ 64 : Nat) : Int)
  else ((n % 2 ^ 64 : Nat) : Int) - 2 ^ 64

/-- Mirrors `modified.duration_since(UNIX_EPOCH).ok().map(as_secs as i64)`
for a modification time of `t` nanoseconds since the epoch:
`duration_since` fails (giving `None` through `.ok()`) exactly when the time
predates the epoch; otherwise the whole-second count of the duration is cast
to i64. -/
def mtime_secs (t : Int) : Option Int :=
  if t < 0 then none else some (u64_as_i64 (t.toNat / 1000000000))

/-- A materialized batch: nine immutable column arrays (mirrors the
`RecordBatch` handed to the caller, keeping only the columns). -/
structure Batch where
  path : List String
  file_type : List String
  read_only : List Bool
  mode : List (Option Nat)
  nlink : List (Option Nat)
  len : List Nat
  uid : List (Option Nat)
  gid : List (Option Nat)
  mtime : List (Option Int)
deriving DecidableEq

/-- Number of rows of a batch (the length of its first column). -/
def Batch.num_rows (c : Batch) : Nat :=
  c.path.length

/-- The data types of the nine column arrays produced by the nine finish
calls, in the order they are passed to `RecordBatch::try_new`. -/
def columnTypes : List DataType :=
  [ .utf8, .utf8, .boolean, .uint32, .uint64, .uint64, .uint32, .uint32,
    .timestampSecond ]

/-- Whether a nullable column array contains a null entry. -/
def hasNull {α : Type} (l : List (Option α)) : Bool :=
  l.any (fun x => x.isNone)

/-- Mirrors `RecordBatch::try_new(schema, columns)`: fails unless the schema
fields match the columns' data types in count and order, all columns have
equal length, and no non-nullable field's column contains a null. -/
def RecordBatch.try_new (s : List Field) (c : Batch) : Except IoError Batch :=
  if s.map Field.dtype ≠ columnTypes then .error "schema mismatch"
  else if ¬ (c.file_type.length = c.path.length ∧
      c.read_only.length = c.path.length ∧
      c.mode.length = c.path.length ∧
      c.nlink.length = c.path.length ∧
      c.len.length = c.path.length ∧
      c.uid.length = c.path.length ∧
      c.gid.length = c.path.length ∧
      c.mtime.length = c.path.length) then .error "column length mismatch"
  else if hasNull c.mode ∧ (s.getD 3 ⟨"", .uint32, true⟩).nullable = false then
    .error "null in non-nullable column"
  else if hasNull c.nlink ∧ (s.getD 4 ⟨"", .uint64, true⟩).nullable = false then
    .error "null in non-nullable column"
  else if hasNull c.uid ∧ (s.getD 6 ⟨"", .uint32, true⟩).nullable = false then
    .error "null in non-nullable column"
  else if hasNull c.gid ∧ (s.getD 7 ⟨"", .uint32, true⟩).nullable = false then
    .error "null in non-nullable column"
  else if hasNull c.mtime ∧ (s.getD 8 ⟨"", .timestampSecond, true⟩).nullable = false then
    .error "null in non-nullable column"
  else .ok c

/-- The for-loop of `lines2batch` (src/lib.rs lines 119-137): pull items from
the (already bounded) line iterator; for each, propagate a line-read error,
resolve metadata through `fs` (mirroring `path2meta`, i.e.
`std::fs::metadata`) propagating its error, append the first eight column
values, then obtain the modification time (propagating its error) and append
the ninth.  Returns the error if any (`none` on normal exit), the builder as
mutated so far, and the items of the bounded iterator left unconsumed. -/
def lines2batch_loop (fs : String → Except IoError Metadata) :
    List (Except IoError String) → Builder →
    Option IoError × Builder × List (Except IoError String)
  | [], b => (none, b, [])
  | rline :: rest, b =>
    match rline with
    | .error e => (some e, b, rest)
    | .ok line =>
      match fs line with
      | .error e => (some e, b, rest)
      | .ok meta =>
        let b1 := b.append_path line
        let b2 := b1.append_type (FileMeta.file_type meta).name
        let b3 := b2.append_read_only (FileMeta.read_only meta)
        let b4 := b3.append_mode (some meta.mode)
        let b5 := b4.append_nlink (some meta.nlink)
        let b6 := b5.append_len meta.len
        let b7 := b6.append_uid (some meta.uid)
        let b8 := b7.append_gid (some meta.gid)
        match meta.modified with
        | .error e => (some e, b8, rest)
        | .ok t =>
          let b9 := b8.append_mtime (mtime_secs t)
          lines2batch_loop fs rest b9

/-- Mirrors the nine `finish_*` calls of `lines2batch`: drain the builder
into a batch of column arrays and reset every accumulator. -/
def Builder.finish_all (b : Builder) : Batch × Builder :=
  (⟨b.path, b.file_type, b.read_only, b.mode, b.nlink, b.len, b.uid, b.gid,
    b.mtime⟩, Builder.new)

/-- Mirrors `lines2batch`: run the loop; on an error return it (the builder
keeps whatever was appended).  Otherwise, if the builder is empty return
`Ok(None)`; else finish all nine columns and assemble the record batch,
mapping an assembly failure to an error.  The third component is the list of
items of the bounded line iterator left unconsumed. -/
def lines2batch (fs : String → Except IoError Metadata)
    (items : List (Except IoError String)) (s : List Field) (b : Builder) :
    Except IoError (Option Batch) × Builder × List (Except IoError String) :=
  match lines2batch_loop fs items b with
  | (some e, b2, rest) => (.error e, b2, rest)
  | (none, b2, rest) =>
    if b2.is_empty then (.ok none, b2, rest)
    else
      let (cols, b3) := b2.finish_all
      match RecordBatch.try_new s cols with
      | .error e => (.error e, b3, rest)
      | .ok bat => (.ok (some bat), b3, rest)

/-- State of `Lines2BatchIter`: the remaining line source, the schema, the
batch size, and the owned builder. -/
structure Lines2BatchIter where
  lines : List (Except IoError String)
  schema : List Field
  batch_size : Nat
  bldr : Builder
deriving DecidableEq

/-- Mirrors `lines2batch_iter`: the initial iterator state, with all nine
builders empty. -/
def lines2batch_iter (lines : List (Except IoError String)) (s : List Field)
    (batch_size : Nat) : Lines2BatchIter :=
  ⟨lines, s, batch_size, Builder.new⟩

/-- Mirrors `Lines2BatchIter::next`: bound the line source by `batch_size`
(`take`), run `lines2batch` on the bounded part, and translate its result:
an error is yielded as `some (error e)`, `Ok(None)` signals end of sequence
(`none`), `Ok(Some(batch))` yields the batch.  Items of the bounded part not
consumed by the loop stay at the front of the line source. -/
def Lines2BatchIter.next (fs : String → Except IoError Metadata)
    (s : Lines2BatchIter) :
    Option (Except IoError Batch) × Lines2BatchIter :=
  let taken := s.lines.take s.batch_size
  let dropped := s.lines.drop s.batch_size
  match lines2batch fs taken s.schema s.bldr with
  | (.error e, b, leftover) =>
    (some (.error e), ⟨leftover ++ dropped, s.schema, s.batch_size, b⟩)
  | (.ok none, b, leftover) =>
    (none, ⟨leftover ++ dropped, s.schema, s.batch_size, b⟩)
  | (.ok (some bat), b, leftover) =>
    (some (.ok bat), ⟨leftover ++ dropped, s.schema, s.batch_size, b⟩)

/-- Drive the iterator like the consuming for-loop of the binary: collect
every yielded item until the iterator signals end of sequence (`fuel` bounds
the number of `next` calls; any fuel larger than the number of yields gives
the full output). -/
def runIter (fs : String → Except IoError Metadata) :
    Nat → Lines2BatchIter → List (Except IoError Batch)
  | 0, _ => []
  | fuel + 1, s =>
    match Lines2BatchIter.next fs s with
    | (none, _) => []
    | (some r, s2) => r :: runIter fs fuel s2

/-- One output row, as resolved from one input line's metadata. -/
structure Row where
  path : String
  file_type : String
  read_only : Bool
  mode : Option Nat
  nlink : Option Nat
  len : Nat
  uid : Option Nat
  gid : Option Nat
  mtime : Option Int
deriving DecidableEq, Inhabited

/-- The row derived from line `line` whose metadata is `m` with modification
time `t`: exactly the nine values appended by the loop body. -/
def mkRow (line : String) (m : Metadata) (t : Int) : Row :=
  ⟨line, (FileMeta.file_type m).name, FileMeta.read_only m, some m.mode,
    some m.nlink, m.len, some m.uid, some m.gid, mtime_secs t⟩

/-- The resolved row of an input line (meaningful when resolution succeeds;
an arbitrary default otherwise). -/
def rowOfLine (fs : String → Except IoError Metadata) (line : String) : Row :=
  match fs line with
  | .error _ => default
  | .ok m =>
    match m.modified with
    | .error _ => default
    | .ok t => mkRow line m t

/-- The builder whose nine accumulators hold exactly the rows `rs`, in
order. -/
def Builder.ofRows (rs : List Row) : Builder :=
  ⟨rs.map Row.path, rs.map Row.file_type, rs.map Row.read_only,
    rs.map Row.mode, rs.map Row.nlink, rs.map Row.len, rs.map Row.uid,
    rs.map Row.gid, rs.map Row.mtime⟩

/-- The batch whose nine columns hold exactly the rows `rs`, in order. -/
def batchOfRows (rs : List Row) : Batch :=
  ⟨rs.map Row.path, rs.map Row.file_type, rs.map Row.read_only,
    rs.map Row.mode, rs.map Row.nlink, rs.map Row.len, rs.map Row.uid,
    rs.map Row.gid, rs.map Row.mtime⟩

/-- Zip nine column lists back into rows (truncates at the shortest). -/
def zipRows : List String → List String → List Bool → List (Option Nat) →
    List (Option Nat) → List Nat → List (Option Nat) → List (Option Nat) →
    List (Option Int) → List Row
  | p :: ps, t :: ts, r :: rs, m :: ms, n :: ns, l :: ls, u :: us, g :: gs,
      q :: qs =>
    ⟨p, t, r, m, n, l, u, g, q⟩ :: zipRows ps ts rs ms ns ls us gs qs
  | _, _, _, _, _, _, _, _, _ => []

/-- The rows of a batch. -/
def Batch.rows (c : Batch) : List Row :=
  zipRows c.path c.file_type c.read_only c.mode c.nlink c.len c.uid c.gid
    c.mtime

/-- The concatenation, in order, of the rows of every successfully yielded
batch of an output stream. -/
def yieldedRows (out : List (Except IoError Batch)) : List Row :=
  out.flatMap (fun r =>
    match r with
    | .ok bat => bat.rows
    | .error _ => [])

/-- Split a list into consecutive groups: each group takes up to `bs`
elements (for `bs ≥ 1` these are exactly the successive
`take bs` / `drop bs` groups; `bs = 0` still yields singleton groups, but
that case is never used below). -/
def chunks {α : Type} (bs : Nat) : List α → List (List α)
  | [] => []
  | x :: xs => (x :: xs.take (bs - 1)) :: chunks bs (xs.drop (bs - 1))
termination_by l => l.length
decreasing_by
  simp only [List.length_drop, List.length_cons]
  omega

/-- A line resolves without error: the metadata resolver succeeds and the
metadata's modification time is available. -/
def resolvesOk (fs : String → Except IoError Metadata) (l : String) : Prop :=
  ∃ m t, fs l = Except.ok m ∧ m.modified = Except.ok t

/-- Append one full row (all nine values) to the builder. -/
def Builder.appendRow (b : Builder) (r : Row) : Builder :=
  ⟨b.path ++ [r.path], b.file_type ++ [r.file_type],
    b.read_only ++ [r.read_only], b.mode ++ [r.mode], b.nlink ++ [r.nlink],
    b.len ++ [r.len], b.uid ++ [r.uid], b.gid ++ [r.gid],
    b.mtime ++ [r.mtime]⟩

/-- The first eight of the nine appends of the loop body (everything except
`append_mtime`), as they stand when `meta.modified()` is queried. -/
def Builder.append_first_eight (b : Builder) (line : String) (m : Metadata) :
    Builder :=
  ((((((((b.append_path line).append_type
    (FileMeta.file_type m).name).append_read_only
    (FileMeta.read_only m)).append_mode (some m.mode)).append_nlink
    (some m.nlink)).append_len m.len).append_uid (some m.uid)).append_gid
    (some m.gid))

end N2S

namespace N2S

theorem loop_cons_ok (fs : String → Except IoError Metadata)
    {line : String} {m : Metadata} {t : Int} (rest : List (Except IoError String))
    (b : Builder) (hm : fs line = Except.ok m)
    (ht : m.modified = Except.ok t) :
    lines2batch_loop fs (Except.ok line :: rest) b =
      lines2batch_loop fs rest (b.appendRow (mkRow line m t)) := by
  cases b
  simp [lines2batch_loop, hm, ht, Builder.appendRow, mkRow,
    Builder.append_path, Builder.append_type, Builder.append_read_only,
    Builder.append_mode, Builder.append_nlink, Builder.append_len,
    Builder.append_uid, Builder.append_gid, Builder.append_mtime]

theorem appendRow_ofRows (rs : List Row) (r : Row) :
    (Builder.ofRows rs).appendRow r = Builder.ofRows (rs ++ [r]) := by
  simp [Builder.ofRows, Builder.appendRow]

theorem rowOfLine_eq_mkRow (fs : String → Except IoError Metadata)
    {l : String} {m : Metadata} {t : Int} (hm : fs l = Except.ok m)
    (ht : m.modified = Except.ok t) : rowOfLine fs l = mkRow l m t := by
  simp [rowOfLine, hm, ht]

theorem loop_ok_append (fs : String → Except IoError Metadata)
    (goods : List String) (tail : List (Except IoError String)) (b : Builder)
    (hok : ∀ l ∈ goods, resolvesOk fs l) :
    lines2batch_loop fs (goods.map Except.ok ++ tail) b =
      lines2batch_loop fs tail
        (goods.foldl (fun bb l => bb.appendRow (rowOfLine fs l)) b) := by
  induction goods generalizing b with
  | nil => simp
  | cons x xs ih =>
    obtain ⟨m, t, hm, ht⟩ := hok x (by simp)
    simp only [List.map_cons, List.cons_append, List.foldl_cons]
    rw [loop_cons_ok fs _ b hm ht, rowOfLine_eq_mkRow fs hm ht] at *
    exact ih _ (fun l hl => hok l (by simp [hl]))

theorem foldl_appendRow_ofRows (rows rs : List Row) :
    rows.foldl (fun bb r => bb.appendRow r) (Builder.ofRows rs) =
      Builder.ofRows (rs ++ rows) := by
  induction rows generalizing rs with
  | nil => simp
  | cons r rows ih =>
    simp only [List.foldl_cons, appendRow_ofRows]
    rw [ih]
    simp

theorem foldl_appendRowOfLine_ofRows (fs : String → Except IoError Metadata)
    (goods : List String) (rs : List Row) :
    goods.foldl (fun bb l => bb.appendRow (rowOfLine fs l))
        (Builder.ofRows rs) =
      Builder.ofRows (rs ++ goods.map (rowOfLine fs)) := by
  induction goods generalizing rs with
  | nil => simp
  | cons x xs ih =>
    simp only [List.foldl_cons, appendRow_ofRows, List.map_cons]
    rw [ih]
    simp

theorem ofRows_nil : Builder.ofRows [] = Builder.new := rfl

theorem is_empty_ofRows (rs : List Row) :
    (Builder.ofRows rs).is_empty = rs.all (fun r => r.path.isEmpty) := by
  simp only [Builder.is_empty, Builder.ofRows]
  induction rs with
  | nil => rfl
  | cons r rs ih => simp [ih]

theorem try_new_batchOfRows (rs : List Row) :
    RecordBatch.try_new schema (batchOfRows rs) =
      Except.ok (batchOfRows rs) := by
  simp [RecordBatch.try_new, batchOfRows, schema, columnTypes]

theorem finish_all_ofRows (rs : List Row) :
    (Builder.ofRows rs).finish_all = (batchOfRows rs, Builder.new) := rfl

theorem lines2batch_all_ok (fs : String → Except IoError Metadata)
    (goods : List String) (rs : List Row)
    (hok : ∀ l ∈ goods, resolvesOk fs l) :
    lines2batch fs (goods.map Except.ok) schema (Builder.ofRows rs) =
      (if (rs ++ goods.map (rowOfLine fs)).all (fun r => r.path.isEmpty)
        then (Except.ok none,
          Builder.ofRows (rs ++ goods.map (rowOfLine fs)), [])
        else
          (Except.ok (some (batchOfRows (rs ++ goods.map (rowOfLine fs)))),
            Builder.new, [])) := by
  have hloop := loop_ok_append fs goods [] (Builder.ofRows rs) hok
  rw [List.append_nil] at hloop
  rw [foldl_appendRowOfLine_ofRows] at hloop
  simp only [lines2batch, hloop, lines2batch_loop, is_empty_ofRows]
  split
  · rfl
  · rw [finish_all_ofRows, try_new_batchOfRows]

theorem rows_batchOfRows (rs : List Row) : (batchOfRows rs).rows = rs := by
  induction rs with
  | nil => rfl
  | cons r rs ih =>
    simp only [batchOfRows, Batch.rows, List.map_cons, zipRows] at *
    exact congrArg (fun l => r :: l) ih

theorem num_rows_batchOfRows (rs : List Row) :
    (batchOfRows rs).num_rows = rs.length := by
  simp [batchOfRows, Batch.num_rows]

theorem rowOfLine_path (fs : String → Except IoError Metadata) {l : String}
    (hok : resolvesOk fs l) : (rowOfLine fs l).path = l := by
  obtain ⟨m, t, hm, ht⟩ := hok
  rw [rowOfLine_eq_mkRow fs hm ht]
  rfl

theorem all_path_map (fs : String → Except IoError Metadata)
    (ls : List String) :
    (ls.map (rowOfLine fs)).all (fun r => r.path.isEmpty) =
      ls.all (fun l => ((rowOfLine fs l).path).isEmpty) := by
  induction ls with
  | nil => rfl
  | cons x xs ih => simp [ih]

theorem next_all_ok (fs : String → Except IoError Metadata)
    (goods : List String) (bs : Nat)
    (hok : ∀ l ∈ goods, resolvesOk fs l) (hne : ∀ l ∈ goods, l ≠ "")
    (hbs : 1 ≤ bs) :
    Lines2BatchIter.next fs ⟨goods.map Except.ok, schema, bs, Builder.new⟩ =
      (if goods.isEmpty then
        (none, ⟨[], schema, bs, Builder.new⟩)
      else
        (some (Except.ok (batchOfRows ((goods.take bs).map (rowOfLine fs)))),
          ⟨(goods.drop bs).map Except.ok, schema, bs, Builder.new⟩)) := by
  have htake : (goods.map (Except.ok : String → Except IoError String)).take
      bs = (goods.take bs).map Except.ok := (List.map_take ..).symm
  have hdrop : (goods.map (Except.ok : String → Except IoError String)).drop
      bs = (goods.drop bs).map Except.ok := (List.map_drop ..).symm
  have hok2 : ∀ l ∈ goods.take bs, resolvesOk fs l :=
    fun l hl => hok l (List.take_subset _ _ hl)
  have hl2b := lines2batch_all_ok fs (goods.take bs) [] hok2
  rw [ofRows_nil, List.nil_append] at hl2b
  cases goods with
  | nil =>
    simp only [List.take_nil, List.map_nil, List.all_nil, if_pos rfl] at hl2b
    simp only [Lines2BatchIter.next, List.map_nil, List.take_nil,
      List.drop_nil, hl2b]
    simp [ofRows_nil]
  | cons g gs =>
    have hglen : ((g :: gs).take bs).all
        (fun l => ((rowOfLine fs l).path).isEmpty) = false := by
      apply List.all_eq_false.mpr
      refine ⟨g, ?_, ?_⟩
      · cases bs with
        | zero => omega
        | succ k => simp [List.take_succ_cons]
      · rw [rowOfLine_path fs (hok g (by simp))]
        have : g ≠ "" := hne g (by simp)
        simpa [String.isEmpty_iff] using this
    rw [all_path_map, hglen] at hl2b
    simp only [Bool.false_eq_true, if_false] at hl2b
    simp only [Lines2BatchIter.next, htake, hdrop, hl2b]
    simp

/-- Splitting `take bs` off a cons cell for `bs ≥ 1`. -/
theorem chunks_cons {α : Type} (bs : Nat) (x : α) (xs : List α) :
    chunks bs (x :: xs) =
      (x :: xs.take (bs - 1)) :: chunks bs (xs.drop (bs - 1)) := by
  rw [chunks]

theorem chunks_nil {α : Type} (bs : Nat) : chunks bs ([] : List α) = [] := by
  rw [chunks]

theorem chunks_flatten_aux {α : Type} (bs : Nat) :
    ∀ (n : Nat) (l : List α), l.length ≤ n → (chunks bs l).flatten = l := by
  intro n
  induction n with
  | zero =>
    intro l h
    have : l = [] := List.length_eq_zero.mp (Nat.le_zero.mp h)
    subst this
    rw [chunks_nil]
    rfl
  | succ n ih =>
    intro l h
    cases l with
    | nil => rw [chunks_nil]; rfl
    | cons x xs =>
      rw [chunks_cons, List.flatten_cons,
        ih (xs.drop (bs - 1)) (by simp at h ⊢; omega)]
      simp [List.take_append_drop]

theorem chunks_flatten {α : Type} (bs : Nat) (l : List α) :
    (chunks bs l).flatten = l :=
  chunks_flatten_aux bs l.length l (Nat.le_refl _)

theorem chunks_mem_length_aux {α : Type} (bs : Nat) (hbs : 1 ≤ bs) :
    ∀ (n : Nat) (l : List α), l.length ≤ n →
      ∀ c ∈ chunks bs l, 1 ≤ c.length ∧ c.length ≤ bs := by
  intro n
  induction n with
  | zero =>
    intro l h c hc
    have : l = [] := List.length_eq_zero.mp (Nat.le_zero.mp h)
    subst this
    rw [chunks_nil] at hc
    simp at hc
  | succ n ih =>
    intro l h c hc
    cases l with
    | nil => rw [chunks_nil] at hc; simp at hc
    | cons x xs =>
      rw [chunks_cons] at hc
      rcases List.mem_cons.mp hc with hc | hc
      · subst hc
        simp only [List.length_cons, List.length_take]
        omega
      · exact ih (xs.drop (bs - 1)) (by simp at h ⊢; omega) c hc

theorem chunks_full_getD_aux {α : Type} (bs : Nat) (hbs : 1 ≤ bs) :
    ∀ (n : Nat) (l : List α) (i : Nat), l.length ≤ n →
      i + 1 < (chunks bs l).length →
      ((chunks bs l).getD i []).length = bs := by
  intro n
  induction n with
  | zero =>
    intro l i h hi
    have : l = [] := List.length_eq_zero.mp (Nat.le_zero.mp h)
    subst this
    rw [chunks_nil] at hi
    simp at hi
  | succ n ih =>
    intro l i h hi
    cases l with
    | nil => rw [chunks_nil] at hi; simp at hi
    | cons x xs =>
      rw [chunks_cons] at hi ⊢
      cases i with
      | zero =>
        simp only [List.length_cons] at hi
        have hrest : chunks bs (xs.drop (bs - 1)) ≠ [] := by
          intro hemp
          rw [hemp] at hi
          simp at hi
        have hdrop : xs.drop (bs - 1) ≠ [] := by
          intro hemp
          rw [hemp, chunks_nil] at hrest
          exact hrest rfl
        have hlen : bs - 1 < xs.length := by
          by_contra hcon
          exact hdrop (List.drop_of_length_le (by omega))
        simp only [List.getD_cons_zero, List.length_cons, List.length_take]
        omega
      | succ i =>
        simp only [List.getD_cons_succ]
        simp only [List.length_cons] at hi
        exact ih (xs.drop (bs - 1)) i (by simp at h ⊢; omega) (by omega)

theorem chunks_lengths_succ {α : Type} (bs : Nat) (hbs : 1 ≤ bs)
    (l : List α) (h : l.length = bs + 1) :
    (chunks bs l).map List.length = [bs, 1] := by
  cases l with
  | nil => simp at h
  | cons x xs =>
    have hxs : xs.length = bs := by simpa using h
    have hdroplen : (xs.drop (bs - 1)).length = 1 := by
      simp [hxs]
      omega
    obtain ⟨y, hy⟩ := List.length_eq_one.mp hdroplen
    rw [chunks_cons, hy, chunks_cons]
    simp [chunks_nil, List.length_take, hxs]
    omega

theorem runIter_all_ok (fs : String → Except IoError Metadata) :
    ∀ (fuel : Nat) (goods : List String) (bs : Nat),
      (∀ l ∈ goods, resolvesOk fs l) → (∀ l ∈ goods, l ≠ "") → 1 ≤ bs →
      goods.length < fuel →
      runIter fs fuel ⟨goods.map Except.ok, schema, bs, Builder.new⟩ =
        (chunks bs goods).map
          (fun ch => Except.ok (batchOfRows (ch.map (rowOfLine fs)))) := by
  intro fuel
  induction fuel with
  | zero => intro goods bs _ _ _ hfuel; omega
  | succ f ih =>
    intro goods bs hok hne hbs hfuel
    cases goods with
    | nil =>
      rw [chunks_nil]
      simp only [runIter, next_all_ok fs [] bs (by simp) (by simp) hbs]
      rfl
    | cons g gs =>
      rw [chunks_cons]
      simp only [runIter, next_all_ok fs (g :: gs) bs hok hne hbs]
      simp only [List.isEmpty_cons, if_neg (by simp : ¬ (false = true))]
      have htake : (g :: gs).take bs = g :: gs.take (bs - 1) := by
        cases bs with
        | zero => omega
        | succ k => simp [List.take_succ_cons]
      have hdrop : (g :: gs).drop bs = gs.drop (bs - 1) := by
        cases bs with
        | zero => omega
        | succ k => simp [List.drop_succ_cons]
      rw [htake, hdrop,
        ih (gs.drop (bs - 1)) bs
          (fun l hl => hok l (by
            simp only [List.mem_cons]
            exact Or.inr (List.drop_subset _ _ hl)))
          (fun l hl => hne l (by
            simp only [List.mem_cons]
            exact Or.inr (List.drop_subset _ _ hl)))
          hbs
          (by
            simp only [List.length_cons] at hfuel
            simp only [List.length_drop]
            omega)]
      rfl

/-- The number of rows of a yielded item (0 for an error item). -/
def numRowsOf : Except IoError Batch → Nat
  | .ok b => b.num_rows
  | .error _ => 0

theorem getD_map_length {α : Type} (l : List (List α)) (i : Nat)
    (hi : i < l.length) :
    (l.map List.length).getD i 0 = (l.getD i []).length := by
  induction l generalizing i with
  | nil => simp at hi
  | cons c cs ih =>
    cases i with
    | zero => rfl
    | succ i =>
      simp only [List.map_cons, List.getD_cons_succ]
      exact ih i (by simpa using hi)

theorem try_new_ok_eq (s : List Field) (c : Batch) (bat : Batch)
    (h : RecordBatch.try_new s c = Except.ok bat) : bat = c := by
  rw [RecordBatch.try_new] at h
  split at h
  · exact absurd h (by simp)
  · split at h
    · exact absurd h (by simp)
    · split at h
      · exact absurd h (by simp)
      · split at h
        · exact absurd h (by simp)
        · split at h
          · exact absurd h (by simp)
          · split at h
            · exact absurd h (by simp)
            · split at h
              · exact absurd h (by simp)
              · exact (Except.ok.injEq .. ▸ h).symm

theorem lines2batch_some_nonempty (fs : String → Except IoError Metadata)
    (items : List (Except IoError String)) (sch : List Field) (b : Builder)
    {bat : Batch} {b2 : Builder} {rest : List (Except IoError String)}
    (h : lines2batch fs items sch b = (Except.ok (some bat), b2, rest)) :
    1 ≤ bat.num_rows := by
  rw [lines2batch] at h
  rcases hl : lines2batch_loop fs items b with ⟨oe, b', rest'⟩
  rw [hl] at h
  cases oe with
  | some e => simp at h
  | none =>
    simp only at h
    by_cases hemp : b'.is_empty
    · rw [if_pos hemp] at h
      simp at h
    · rw [if_neg hemp] at h
      simp only [Builder.finish_all] at h
      rcases htr : RecordBatch.try_new sch
          ⟨b'.path, b'.file_type, b'.read_only, b'.mode, b'.nlink, b'.len,
            b'.uid, b'.gid, b'.mtime⟩ with e | bat'
      · rw [htr] at h
        simp at h
      · rw [htr] at h
        simp only [Prod.mk.injEq, Except.ok.injEq, Option.some.injEq] at h
        obtain ⟨hbat, -, -⟩ := h
        have hbat' := try_new_ok_eq _ _ _ htr
        have hpath : bat.path = b'.path := by rw [← hbat, hbat']
        rw [Builder.is_empty] at hemp
        have hne : b'.path ≠ [] := by
          intro hcon
          rw [hcon] at hemp
          simp at hemp
        rw [Batch.num_rows, hpath]
        have := List.length_pos.mpr hne
        omega

end N2S

namespace N2S

/-- A concrete metadata value used to instantiate the theorems below on
concrete inputs: a writable regular file of 42 bytes, mode 420, one hard
link, uid and gid 1000, modified 5 seconds after the epoch. -/
def mW : Metadata :=
  ⟨false, false, true, false, 42, Except.ok 5000000000, 420, 1, 1000, 1000⟩

/-- A concrete resolver: fails on the empty path (as `std::fs::metadata`
does), succeeds with `mW` on every other path. -/
def fsW : String → Except IoError Metadata :=
  fun s => if s = "" then Except.error "no such file" else Except.ok mW

theorem fsW_ok {l : String} (h : l ≠ "") : fsW l = Except.ok mW := by
  rw [fsW]
  simp [h]

theorem fsW_resolvesOk {l : String} (h : l ≠ "") : resolvesOk fsW l :=
  ⟨mW, 5000000000, fsW_ok h, rfl⟩

/-- C1: for an error-free input (every line read succeeds, every path
resolves, every modification time is available; the resolver rejects the
empty path, as `std::fs::metadata` does) and a batch size of at least 1,
every yielded item is a batch, and the concatenation of the rows of all
yielded batches equals, in input order, the resolved row of each input
line: no row duplicated, dropped, or reordered. -/
theorem yielded_rows_eq_resolved_rows (fs : String → Except IoError Metadata)
    (goods : List String) (bs fuel : Nat) (hbs : 1 ≤ bs)
    (hfuel : goods.length < fuel)
    (hfs0 : ∀ m, fs "" ≠ Except.ok m)
    (hok : ∀ l ∈ goods, resolvesOk fs l) :
    (∀ r ∈ runIter fs fuel (lines2batch_iter (goods.map Except.ok) schema bs),
      ∃ bat, r = Except.ok bat) ∧
    yieldedRows
        (runIter fs fuel
          (lines2batch_iter (goods.map Except.ok) schema bs)) =
      goods.map (rowOfLine fs) := by
  have hne : ∀ l ∈ goods, l ≠ "" := by
    intro l hl hcon
    obtain ⟨m, t, hm, ht⟩ := hok l hl
    rw [hcon] at hm
    exact hfs0 m hm
  have hrun := runIter_all_ok fs fuel goods bs hok hne hbs hfuel
  rw [lines2batch_iter, hrun]
  constructor
  · intro r hr
    simp only [List.mem_map] at hr
    obtain ⟨ch, _, hch⟩ := hr
    exact ⟨_, hch.symm⟩
  · have hy : ∀ chs : List (List String),
        yieldedRows (chs.map
          (fun ch => Except.ok (batchOfRows (ch.map (rowOfLine fs))))) =
          chs.flatten.map (rowOfLine fs) := by
      intro chs
      induction chs with
      | nil => rfl
      | cons c cs ih =>
        simp only [List.map_cons, yieldedRows, List.flatMap_cons,
          rows_batchOfRows, List.flatten_cons, List.map_append]
        rw [← ih]
        rfl
    rw [hy, chunks_flatten]

/-- Witness for C1 at a concrete input of three lines and batch size 2. -/
theorem yielded_rows_eq_resolved_rows_witness :
    yieldedRows (runIter fsW 4
        (lines2batch_iter (["a", "b", "c"].map Except.ok) schema 2)) =
      ["a", "b", "c"].map (rowOfLine fsW) :=
  (yielded_rows_eq_resolved_rows fsW ["a", "b", "c"] 2 4 (by decide)
    (by decide) (fun m h => by rw [fsW] at h; simp at h)
    (fun l hl => by
      fin_cases hl <;> exact fsW_resolvesOk (by decide))).2

/-- C5: for an error-free input and batch size at least 1, every yielded
batch has between 1 and `batch_size` rows, every batch other than the last
has exactly `batch_size` rows, and an input of exactly `batch_size + 1`
lines yields exactly two batches of `batch_size` and 1 rows. -/
theorem batch_sizes_bounded (fs : String → Except IoError Metadata)
    (goods : List String) (bs fuel : Nat) (hbs : 1 ≤ bs)
    (hfuel : goods.length < fuel)
    (hfs0 : ∀ m, fs "" ≠ Except.ok m)
    (hok : ∀ l ∈ goods, resolvesOk fs l) :
    (∀ n ∈ (runIter fs fuel
        (lines2batch_iter (goods.map Except.ok) schema bs)).map numRowsOf,
      1 ≤ n ∧ n ≤ bs) ∧
    (∀ i, i + 1 < (runIter fs fuel
        (lines2batch_iter (goods.map Except.ok) schema bs)).length →
      ((runIter fs fuel
        (lines2batch_iter (goods.map Except.ok) schema bs)).map
          numRowsOf).getD i 0 = bs) ∧
    (goods.length = bs + 1 →
      (runIter fs fuel
        (lines2batch_iter (goods.map Except.ok) schema bs)).map numRowsOf =
        [bs, 1]) := by
  have hne : ∀ l ∈ goods, l ≠ "" := by
    intro l hl hcon
    obtain ⟨m, t, hm, ht⟩ := hok l hl
    rw [hcon] at hm
    exact hfs0 m hm
  have hrun := runIter_all_ok fs fuel goods bs hok hne hbs hfuel
  rw [lines2batch_iter, hrun]
  have hlens : ((chunks bs goods).map
      (fun ch => Except.ok (batchOfRows (ch.map (rowOfLine fs))))).map
        numRowsOf = (chunks bs goods).map List.length := by
    rw [List.map_map]
    apply List.map_congr_left
    intro ch _
    simp [numRowsOf, num_rows_batchOfRows]
  rw [hlens]
  refine ⟨?_, ?_, ?_⟩
  · intro n hn
    simp only [List.mem_map] at hn
    obtain ⟨c, hc, hlen⟩ := hn
    rw [← hlen]
    exact chunks_mem_length_aux bs hbs goods.length goods (Nat.le_refl _) c hc
  · intro i hi
    simp only [List.length_map] at hi
    rw [getD_map_length _ _ (by omega)]
    exact chunks_full_getD_aux bs hbs goods.length goods i (Nat.le_refl _) hi
  · intro hlen
    exact chunks_lengths_succ bs hbs goods hlen

/-- Witness for C5 at a concrete input of three lines and batch size 2. -/
theorem batch_sizes_bounded_witness :
    (runIter fsW 4
      (lines2batch_iter (["a", "b", "c"].map Except.ok) schema 2)).map
        numRowsOf = [2, 1] :=
  (batch_sizes_bounded fsW ["a", "b", "c"] 2 4 (by decide) (by decide)
    (fun m h => by rw [fsW] at h; simp at h)
    (fun l hl => by
      fin_cases hl <;> exact fsW_resolvesOk (by decide))).2.2 (by decide)

/-- C8: with `batch_size = 0`, the very first call to `next` pulls nothing,
finds the builder empty, and signals end of sequence; no batch is ever
yielded (the whole run is empty for every fuel), whatever the input. -/
theorem batch_size_zero_yields_nothing (fs : String → Except IoError Metadata)
    (items : List (Except IoError String)) (sch : List Field) :
    (Lines2BatchIter.next fs (lines2batch_iter items sch 0)).1 = none ∧
    ∀ fuel, runIter fs fuel (lines2batch_iter items sch 0) = [] := by
  have hnext : Lines2BatchIter.next fs (lines2batch_iter items sch 0) =
      (none, ⟨items, sch, 0, Builder.new⟩) := by
    simp [Lines2BatchIter.next, lines2batch_iter, lines2batch,
      lines2batch_loop, Builder.is_empty, Builder.new]
  refine ⟨by rw [hnext], ?_⟩
  intro fuel
  cases fuel with
  | zero => rfl
  | succ f => simp [runIter, hnext]

/-- C6: the iterator never yields a 0-row batch: a `next` call on exhausted
input with an empty builder signals end of sequence (first conjunct), an
empty input yields zero batches for any fuel (second conjunct), and any
batch actually yielded by any `next` call has at least one row (third
conjunct). -/
theorem no_zero_length_batch (fs : String → Except IoError Metadata) :
    (∀ s : Lines2BatchIter, s.lines = [] → s.bldr = Builder.new →
      (Lines2BatchIter.next fs s).1 = none) ∧
    (∀ (sch : List Field) (bs fuel : Nat),
      runIter fs fuel (lines2batch_iter [] sch bs) = []) ∧
    (∀ (s : Lines2BatchIter) (bat : Batch) (s2 : Lines2BatchIter),
      Lines2BatchIter.next fs s = (some (Except.ok bat), s2) →
      1 ≤ bat.num_rows) := by
  refine ⟨?_, ?_, ?_⟩
  · rintro ⟨lines, sch, bs, bldr⟩ h1 h2
    simp only at h1 h2
    subst h1
    subst h2
    simp [Lines2BatchIter.next, lines2batch, lines2batch_loop,
      Builder.is_empty, Builder.new]
  · intro sch bs fuel
    have hnext : Lines2BatchIter.next fs (lines2batch_iter [] sch bs) =
        (none, ⟨[], sch, bs, Builder.new⟩) := by
      simp [Lines2BatchIter.next, lines2batch_iter, lines2batch,
        lines2batch_loop, Builder.is_empty, Builder.new]
    cases fuel with
    | zero => rfl
    | succ f => simp [runIter, hnext]
  · intro s bat s2 h
    simp only [Lines2BatchIter.next] at h
    rcases hlb : lines2batch fs (s.lines.take s.batch_size) s.schema s.bldr
      with ⟨res, b, leftover⟩
    rw [hlb] at h
    cases res with
    | error e => simp at h
    | ok ob =>
      cases ob with
      | none => simp at h
      | some bat' =>
        simp only [Prod.mk.injEq, Option.some.injEq, Except.ok.injEq] at h
        obtain ⟨hbat, -⟩ := h
        rw [← hbat]
        exact lines2batch_some_nonempty fs _ _ _ hlb

/-- Witness for C6: concrete instances of all three conjuncts. -/
theorem no_zero_length_batch_witness :
    (Lines2BatchIter.next fsW ⟨[], schema, 3, Builder.new⟩).1 = none ∧
    runIter fsW 5 (lines2batch_iter [] schema 2) = [] ∧
    1 ≤ (batchOfRows [rowOfLine fsW "a"]).num_rows :=
  ⟨(no_zero_length_batch fsW).1 ⟨[], schema, 3, Builder.new⟩ rfl rfl,
    (no_zero_length_batch fsW).2.1 schema 2 5,
    (no_zero_length_batch fsW).2.2 ⟨[Except.ok "a"], schema, 1, Builder.new⟩
      (batchOfRows [rowOfLine fsW "a"]) ⟨[], schema, 1, Builder.new⟩
      (by decide)⟩

/-- C7: for a successfully resolved row whose modification time is `t`
nanoseconds since the epoch, the value appended to the mtime column is
`mtime_secs t`; that value is null exactly when the modification time
predates the epoch (cannot be represented as a non-negative offset), and
otherwise equals the whole-second count since the epoch (exactly, whenever
that count fits in a signed 64-bit integer). -/
theorem mtime_null_iff_before_epoch (fs : String → Except IoError Metadata)
    (l : String) (m : Metadata) (t : Int) (b : Builder)
    (hm : fs l = Except.ok m) (ht : m.modified = Except.ok t) :
    (lines2batch_loop fs [Except.ok l] b).2.1.mtime =
      b.mtime ++ [mtime_secs t] ∧
    (mtime_secs t = none ↔ t < 0) ∧
    (0 ≤ t → t.toNat / 1000000000 < 2 ^ 63 →
      mtime_secs t = some ((t.toNat / 1000000000 : Nat) : Int)) := by
  refine ⟨?_, ?_, ?_⟩
  · rw [loop_cons_ok fs [] b hm ht]
    simp [lines2batch_loop, Builder.appendRow, mkRow]
  · rw [mtime_secs]
    split
    · simp_all
    · simp_all
  · intro h1 h2
    rw [mtime_secs, if_neg (by omega)]
    have hmod : t.toNat / 1000000000 % 2 ^ 64 = t.toNat / 1000000000 :=
      Nat.mod_eq_of_lt (by omega)
    rw [u64_as_i64, hmod, if_pos h2]

/-- Witness for C7 at the concrete resolver `fsW` (mtime 5000000000 ns). -/
theorem mtime_null_iff_before_epoch_witness :
    (lines2batch_loop fsW [Except.ok "a"] Builder.new).2.1.mtime =
      Builder.new.mtime ++ [mtime_secs 5000000000] ∧
    (mtime_secs 5000000000 = none ↔ (5000000000 : Int) < 0) ∧
    (0 ≤ (5000000000 : Int) →
      (5000000000 : Int).toNat / 1000000000 < 2 ^ 63 →
      mtime_secs 5000000000 =
        some (((5000000000 : Int).toNat / 1000000000 : Nat) : Int)) :=
  mtime_null_iff_before_epoch fsW "a" mW 5000000000 Builder.new
    (fsW_ok (by decide)) rfl

/-- All nine accumulators hold the same count of appended entries. -/
def Builder.balanced (b : Builder) : Prop :=
  b.file_type.length = b.path.length ∧
  b.read_only.length = b.path.length ∧
  b.mode.length = b.path.length ∧
  b.nlink.length = b.path.length ∧
  b.len.length = b.path.length ∧
  b.uid.length = b.path.length ∧
  b.gid.length = b.path.length ∧
  b.mtime.length = b.path.length

/-- None of the four platform-conditional accumulators holds a null. -/
def Builder.ext_no_null (b : Builder) : Prop :=
  hasNull b.mode = false ∧ hasNull b.nlink = false ∧
  hasNull b.uid = false ∧ hasNull b.gid = false

theorem appendRow_balanced {b : Builder} (r : Row) (hb : b.balanced) :
    (b.appendRow r).balanced := by
  obtain ⟨h1, h2, h3, h4, h5, h6, h7, h8⟩ := hb
  simp_all [Builder.balanced, Builder.appendRow]

theorem loop_balanced (fs : String → Except IoError Metadata)
    (hunix : ∀ l m, fs l = Except.ok m → ∃ t, m.modified = Except.ok t) :
    ∀ (items : List (Except IoError String)) (b : Builder), b.balanced →
      (lines2batch_loop fs items b).2.1.balanced := by
  intro items
  induction items with
  | nil => intro b hb; exact hb
  | cons it rest ih =>
    intro b hb
    cases it with
    | error e => simpa [lines2batch_loop] using hb
    | ok line =>
      rcases hfs : fs line with e | m
      · simpa [lines2batch_loop, hfs] using hb
      · obtain ⟨t, ht⟩ := hunix line m hfs
        rw [loop_cons_ok fs rest b hfs ht]
        exact ih _ (appendRow_balanced _ hb)

theorem hasNull_append_some {α : Type} (l : List (Option α)) (x : α) :
    hasNull (l ++ [some x]) = hasNull l := by
  simp [hasNull]

theorem appendRow_ext_no_null {b : Builder} {line : String} {m : Metadata}
    {t : Int} (hb : b.ext_no_null) :
    (b.appendRow (mkRow line m t)).ext_no_null := by
  obtain ⟨h1, h2, h3, h4⟩ := hb
  simp_all [Builder.ext_no_null, Builder.appendRow, mkRow,
    hasNull_append_some]

theorem append_first_eight_ext_no_null {b : Builder} {line : String}
    {m : Metadata} (hb : b.ext_no_null) :
    (b.append_first_eight line m).ext_no_null := by
  obtain ⟨h1, h2, h3, h4⟩ := hb
  simp_all [Builder.ext_no_null, Builder.append_first_eight,
    Builder.append_path, Builder.append_type, Builder.append_read_only,
    Builder.append_mode, Builder.append_nlink, Builder.append_len,
    Builder.append_uid, Builder.append_gid, hasNull_append_some]

theorem loop_ext_no_null (fs : String → Except IoError Metadata) :
    ∀ (items : List (Except IoError String)) (b : Builder), b.ext_no_null →
      (lines2batch_loop fs items b).2.1.ext_no_null := by
  intro items
  induction items with
  | nil => intro b hb; exact hb
  | cons it rest ih =>
    intro b hb
    cases it with
    | error e => simpa [lines2batch_loop] using hb
    | ok line =>
      rcases hfs : fs line with e | m
      · simpa [lines2batch_loop, hfs] using hb
      · rcases ht : m.modified with e | t
        · have := @append_first_eight_ext_no_null b line m hb
          simpa [lines2batch_loop, hfs, ht, Builder.append_first_eight,
            Builder.append_path, Builder.append_type,
            Builder.append_read_only, Builder.append_mode,
            Builder.append_nlink, Builder.append_len, Builder.append_uid,
            Builder.append_gid] using this
        · rw [loop_cons_ok fs rest b hfs ht]
          exact ih _ (appendRow_ext_no_null hb)

theorem new_balanced : Builder.new.balanced := by
  simp [Builder.balanced, Builder.new]

theorem new_ext_no_null : Builder.new.ext_no_null := by
  simp [Builder.ext_no_null, Builder.new, hasNull]

theorem lines2batch_some_cols (fs : String → Except IoError Metadata)
    (items : List (Except IoError String)) (sch : List Field) (b : Builder)
    {bat : Batch} {b2 : Builder} {rest : List (Except IoError String)}
    (h : lines2batch fs items sch b = (Except.ok (some bat), b2, rest)) :
    bat = ((lines2batch_loop fs items b).2.1.finish_all).1 := by
  rw [lines2batch] at h
  rcases hl : lines2batch_loop fs items b with ⟨oe, b', rest'⟩
  rw [hl] at h
  show bat = (b'.finish_all).1
  cases oe with
  | some e => simp at h
  | none =>
    simp only at h ⊢
    by_cases hemp : b'.is_empty
    · rw [if_pos hemp] at h
      simp at h
    · rw [if_neg hemp] at h
      simp only [Builder.finish_all] at h ⊢
      rcases htr : RecordBatch.try_new sch
          ⟨b'.path, b'.file_type, b'.read_only, b'.mode, b'.nlink, b'.len,
            b'.uid, b'.gid, b'.mtime⟩ with e | bat'
      · rw [htr] at h
        simp at h
      · rw [htr] at h
        simp only [Prod.mk.injEq, Except.ok.injEq, Option.some.injEq] at h
        obtain ⟨hbat, -, -⟩ := h
        rw [← hbat]
        exact try_new_ok_eq _ _ _ htr

theorem lines2batch_bldr_balanced (fs : String → Except IoError Metadata)
    (hunix : ∀ l m, fs l = Except.ok m → ∃ t, m.modified = Except.ok t)
    (items : List (Except IoError String)) (sch : List Field) (b : Builder)
    (hb : b.balanced) : (lines2batch fs items sch b).2.1.balanced := by
  rw [lines2batch]
  rcases hl : lines2batch_loop fs items b with ⟨oe, b', rest'⟩
  have hb' : b'.balanced := by
    have := loop_balanced fs hunix items b hb
    rw [hl] at this
    exact this
  cases oe with
  | some e => exact hb'
  | none =>
    simp only
    by_cases hemp : b'.is_empty
    · rw [if_pos hemp]
      exact hb'
    · rw [if_neg hemp]
      simp only [Builder.finish_all]
      rcases htr : RecordBatch.try_new sch
          ⟨b'.path, b'.file_type, b'.read_only, b'.mode, b'.nlink, b'.len,
            b'.uid, b'.gid, b'.mtime⟩ with e | bat'
      · exact new_balanced
      · exact new_balanced

theorem lines2batch_bldr_ext_no_null (fs : String → Except IoError Metadata)
    (items : List (Except IoError String)) (sch : List Field) (b : Builder)
    (hb : b.ext_no_null) : (lines2batch fs items sch b).2.1.ext_no_null := by
  rw [lines2batch]
  rcases hl : lines2batch_loop fs items b with ⟨oe, b', rest'⟩
  have hb' : b'.ext_no_null := by
    have := loop_ext_no_null fs items b hb
    rw [hl] at this
    exact this
  cases oe with
  | some e => exact hb'
  | none =>
    simp only
    by_cases hemp : b'.is_empty
    · rw [if_pos hemp]
      exact hb'
    · rw [if_neg hemp]
      simp only [Builder.finish_all]
      rcases htr : RecordBatch.try_new sch
          ⟨b'.path, b'.file_type, b'.read_only, b'.mode, b'.nlink, b'.len,
            b'.uid, b'.gid, b'.mtime⟩ with e | bat'
      · exact new_ext_no_null
      · exact new_ext_no_null

end N2S

namespace N2S

/-- C4: on the Unix build (where `Metadata::modified` always succeeds), a
`next` call on a state whose builder is balanced (all nine accumulator
counts equal — true of the initial state) leaves the builder balanced, and
every batch it yields has nine columns of equal length (the columns are
exactly the accumulators drained at the batch boundary). -/
theorem balanced_at_batch_boundary (fs : String → Except IoError Metadata)
    (s : Lines2BatchIter)
    (hunix : ∀ l m, fs l = Except.ok m → ∃ t, m.modified = Except.ok t)
    (hb : s.bldr.balanced) :
    ((Lines2BatchIter.next fs s).2.bldr.balanced) ∧
    (∀ (bat : Batch) (s2 : Lines2BatchIter),
      Lines2BatchIter.next fs s = (some (Except.ok bat), s2) →
      bat.file_type.length = bat.path.length ∧
      bat.read_only.length = bat.path.length ∧
      bat.mode.length = bat.path.length ∧
      bat.nlink.length = bat.path.length ∧
      bat.len.length = bat.path.length ∧
      bat.uid.length = bat.path.length ∧
      bat.gid.length = bat.path.length ∧
      bat.mtime.length = bat.path.length) := by
  constructor
  · simp only [Lines2BatchIter.next]
    rcases hlb : lines2batch fs (s.lines.take s.batch_size) s.schema s.bldr
      with ⟨res, b, leftover⟩
    have hbal := lines2batch_bldr_balanced fs hunix
      (s.lines.take s.batch_size) s.schema s.bldr hb
    rw [hlb] at hbal
    cases res with
    | error e => exact hbal
    | ok ob => cases ob with
      | none => exact hbal
      | some bat => exact hbal
  · intro bat s2 h
    simp only [Lines2BatchIter.next] at h
    rcases hlb : lines2batch fs (s.lines.take s.batch_size) s.schema s.bldr
      with ⟨res, b, leftover⟩
    rw [hlb] at h
    cases res with
    | error e => simp at h
    | ok ob =>
      cases ob with
      | none => simp at h
      | some bat' =>
        simp only [Prod.mk.injEq, Option.some.injEq, Except.ok.injEq] at h
        obtain ⟨hbat, -⟩ := h
        have hcols := lines2batch_some_cols fs
          (s.lines.take s.batch_size) s.schema s.bldr hlb
        have hbal := loop_balanced fs hunix (s.lines.take s.batch_size)
          s.bldr hb
        rw [← hbat, hcols, Builder.finish_all]
        exact hbal

/-- Witness for C4: a concrete call yielding a batch from one line. -/
theorem balanced_at_batch_boundary_witness :
    ((Lines2BatchIter.next fsW
      ⟨[Except.ok "a"], schema, 1, Builder.new⟩).2.bldr.balanced) ∧
    (∀ (bat : Batch) (s2 : Lines2BatchIter),
      Lines2BatchIter.next fsW ⟨[Except.ok "a"], schema, 1, Builder.new⟩ =
        (some (Except.ok bat), s2) →
      bat.file_type.length = bat.path.length ∧
      bat.read_only.length = bat.path.length ∧
      bat.mode.length = bat.path.length ∧
      bat.nlink.length = bat.path.length ∧
      bat.len.length = bat.path.length ∧
      bat.uid.length = bat.path.length ∧
      bat.gid.length = bat.path.length ∧
      bat.mtime.length = bat.path.length) :=
  balanced_at_batch_boundary fsW ⟨[Except.ok "a"], schema, 1, Builder.new⟩
    (fun l m h => by
      rw [fsW] at h
      by_cases hl : l = ""
      · simp [hl] at h
      · simp only [if_neg hl, Except.ok.injEq] at h
        exact ⟨5000000000, by rw [← h]; rfl⟩)
    new_balanced

/-- C10: a `next` call on a state whose four platform-conditional
accumulators (mode, nlink, uid, gid) contain no null — true of the initial
state — leaves them null-free, and every batch it yields has no null in any
of those four columns: on the Unix build every appended row carries
non-null values for all four. -/
theorem ext_columns_no_null (fs : String → Except IoError Metadata)
    (s : Lines2BatchIter) (hb : s.bldr.ext_no_null) :
    ((Lines2BatchIter.next fs s).2.bldr.ext_no_null) ∧
    (∀ (bat : Batch) (s2 : Lines2BatchIter),
      Lines2BatchIter.next fs s = (some (Except.ok bat), s2) →
      hasNull bat.mode = false ∧ hasNull bat.nlink = false ∧
      hasNull bat.uid = false ∧ hasNull bat.gid = false) := by
  constructor
  · simp only [Lines2BatchIter.next]
    rcases hlb : lines2batch fs (s.lines.take s.batch_size) s.schema s.bldr
      with ⟨res, b, leftover⟩
    have hnn := lines2batch_bldr_ext_no_null fs
      (s.lines.take s.batch_size) s.schema s.bldr hb
    rw [hlb] at hnn
    cases res with
    | error e => exact hnn
    | ok ob => cases ob with
      | none => exact hnn
      | some bat => exact hnn
  · intro bat s2 h
    simp only [Lines2BatchIter.next] at h
    rcases hlb : lines2batch fs (s.lines.take s.batch_size) s.schema s.bldr
      with ⟨res, b, leftover⟩
    rw [hlb] at h
    cases res with
    | error e => simp at h
    | ok ob =>
      cases ob with
      | none => simp at h
      | some bat' =>
        simp only [Prod.mk.injEq, Option.some.injEq, Except.ok.injEq] at h
        obtain ⟨hbat, -⟩ := h
        have hcols := lines2batch_some_cols fs
          (s.lines.take s.batch_size) s.schema s.bldr hlb
        have hnn := loop_ext_no_null fs (s.lines.take s.batch_size)
          s.bldr hb
        rw [← hbat, hcols, Builder.finish_all]
        exact hnn

/-- Witness for C10: a concrete call yielding a batch from one line. -/
theorem ext_columns_no_null_witness :
    ((Lines2BatchIter.next fsW
      ⟨[Except.ok "a"], schema, 1, Builder.new⟩).2.bldr.ext_no_null) ∧
    (∀ (bat : Batch) (s2 : Lines2BatchIter),
      Lines2BatchIter.next fsW ⟨[Except.ok "a"], schema, 1, Builder.new⟩ =
        (some (Except.ok bat), s2) →
      hasNull bat.mode = false ∧ hasNull bat.nlink = false ∧
      hasNull bat.uid = false ∧ hasNull bat.gid = false) :=
  ext_columns_no_null fsW ⟨[Except.ok "a"], schema, 1, Builder.new⟩
    new_ext_no_null

end N2S

namespace N2S

/-- A concrete metadata value whose modification time is unavailable. -/
def mBad : Metadata :=
  ⟨false, false, true, false, 7, Except.error "no mtime", 420, 1, 1000, 1000⟩

/-- A concrete resolver that always succeeds with `mBad`. -/
def fsBad : String → Except IoError Metadata :=
  fun _ => Except.ok mBad

/-- C2 counterexample: processing the line "a" with a resolver whose
metadata has an unavailable modification time raises an error for that row,
yet the row's path (and seven more values) were already appended: the
appends precede the error, refuting the claim for modification-time
retrieval errors. -/
theorem mtime_error_row_partially_appended :
    (lines2batch_loop fsBad [Except.ok "a"] Builder.new).1 = some "no mtime" ∧
    (lines2batch_loop fsBad [Except.ok "a"] Builder.new).2.1.path = ["a"] ∧
    (lines2batch_loop fsBad [Except.ok "a"] Builder.new).2.1.mtime = [] := by
  decide

/-- C2 amended: a line-read error or a metadata-resolution error for a row
precedes every append for that row (the builder is untouched for that row);
a modification-time retrieval error, however, is raised only after the
first eight of the row's nine values (all but mtime) have been appended. -/
theorem error_kinds_vs_appends (fs : String → Except IoError Metadata)
    (b : Builder) (rest : List (Except IoError String)) (e : IoError)
    (l : String) (m : Metadata) :
    (lines2batch_loop fs (Except.error e :: rest) b = (some e, b, rest)) ∧
    (fs l = Except.error e →
      lines2batch_loop fs (Except.ok l :: rest) b = (some e, b, rest)) ∧
    (fs l = Except.ok m → m.modified = Except.error e →
      lines2batch_loop fs (Except.ok l :: rest) b =
        (some e, b.append_first_eight l m, rest)) := by
  refine ⟨by simp [lines2batch_loop], ?_, ?_⟩
  · intro h
    simp [lines2batch_loop, h]
  · intro h1 h2
    simp [lines2batch_loop, h1, h2, Builder.append_first_eight]

/-- Witness for the amended C2 at the concrete resolver `fsBad`. -/
theorem error_kinds_vs_appends_witness :
    lines2batch_loop fsBad [Except.ok "a"] Builder.new =
      (some "no mtime", Builder.new.append_first_eight "a" mBad, []) :=
  (error_kinds_vs_appends fsBad Builder.new [] "no mtime" "a" mBad).2.2
    rfl rfl

/-- C3 counterexample: with batch size 2 and input line "a" followed by a
failing line read, the `next` call yields the error, yet the row appended
for "a" during that same call remains in the builder: it is not
discarded. -/
theorem rows_not_discarded_counterexample :
    (Lines2BatchIter.next fsW
      ⟨[Except.ok "a", Except.error "boom"], schema, 2, Builder.new⟩).1 =
        some (Except.error "boom") ∧
    (Lines2BatchIter.next fsW
      ⟨[Except.ok "a", Except.error "boom"], schema, 2, Builder.new⟩).2.bldr.path =
        ["a"] := by
  decide

/-- C3 amended: when a `next` call encounters an error — whichever of the
three kinds it is: a line-read error, a metadata-resolution error, or a
modification-time retrieval error on the first failing item of the call's
window — the call yields that error as its result, and NOTHING is
discarded: the rows appended during that same call (for the lines that
resolved before the failing one, plus, for a modification-time error, the
eight partial values of the failing row itself) are retained in the
builder, after the rows appended during prior calls that have not yet been
finished. -/
theorem error_call_retains_all_rows (fs : String → Except IoError Metadata)
    (goods : List String) (e : IoError) (l : String) (m : Metadata)
    (tail : List (Except IoError String)) (rs : List Row) (sch : List Field)
    (bs : Nat) (hok : ∀ l2 ∈ goods, resolvesOk fs l2)
    (hbs : goods.length + 1 ≤ bs) :
    ((Lines2BatchIter.next fs
      ⟨goods.map Except.ok ++ Except.error e :: tail, sch, bs,
        Builder.ofRows rs⟩).1 = some (Except.error e) ∧
    (Lines2BatchIter.next fs
      ⟨goods.map Except.ok ++ Except.error e :: tail, sch, bs,
        Builder.ofRows rs⟩).2.bldr =
      Builder.ofRows (rs ++ goods.map (rowOfLine fs))) ∧
    (fs l = Except.error e →
      (Lines2BatchIter.next fs
        ⟨goods.map Except.ok ++ Except.ok l :: tail, sch, bs,
          Builder.ofRows rs⟩).1 = some (Except.error e) ∧
      (Lines2BatchIter.next fs
        ⟨goods.map Except.ok ++ Except.ok l :: tail, sch, bs,
          Builder.ofRows rs⟩).2.bldr =
        Builder.ofRows (rs ++ goods.map (rowOfLine fs))) ∧
    (fs l = Except.ok m → m.modified = Except.error e →
      (Lines2BatchIter.next fs
        ⟨goods.map Except.ok ++ Except.ok l :: tail, sch, bs,
          Builder.ofRows rs⟩).1 = some (Except.error e) ∧
      (Lines2BatchIter.next fs
        ⟨goods.map Except.ok ++ Except.ok l :: tail, sch, bs,
          Builder.ofRows rs⟩).2.bldr =
        (Builder.ofRows
          (rs ++ goods.map (rowOfLine fs))).append_first_eight l m) := by
  have htaken : ∀ bad : Except IoError String,
      (goods.map (Except.ok : String → Except IoError String) ++
        bad :: tail).take bs =
      goods.map Except.ok ++
        bad :: tail.take (bs - goods.length - 1) := by
    intro bad
    rw [List.take_append_eq_append_take,
      List.take_of_length_le (by simp; omega)]
    congr 1
    have hsub : bs -
        (goods.map (Except.ok : String → Except IoError String)).length =
        (bs - goods.length - 1) + 1 := by
      simp
      omega
    rw [hsub, List.take_succ_cons]
  have hloop : ∀ bad : Except IoError String,
      lines2batch_loop fs
        (goods.map Except.ok ++ bad :: tail.take (bs - goods.length - 1))
        (Builder.ofRows rs) =
      lines2batch_loop fs (bad :: tail.take (bs - goods.length - 1))
        (Builder.ofRows (rs ++ goods.map (rowOfLine fs))) := by
    intro bad
    have h := loop_ok_append fs goods
      (bad :: tail.take (bs - goods.length - 1)) (Builder.ofRows rs) hok
    rw [foldl_appendRowOfLine_ofRows] at h
    exact h
  refine ⟨?_, ?_, ?_⟩
  · have hstep : lines2batch_loop fs
        (Except.error e :: tail.take (bs - goods.length - 1))
        (Builder.ofRows (rs ++ goods.map (rowOfLine fs))) =
        (some e, Builder.ofRows (rs ++ goods.map (rowOfLine fs)),
          tail.take (bs - goods.length - 1)) := by
      simp [lines2batch_loop]
    simp only [Lines2BatchIter.next, htaken, lines2batch, hloop, hstep]
    exact ⟨by trivial, by trivial⟩
  · intro hl
    have hstep : lines2batch_loop fs
        (Except.ok l :: tail.take (bs - goods.length - 1))
        (Builder.ofRows (rs ++ goods.map (rowOfLine fs))) =
        (some e, Builder.ofRows (rs ++ goods.map (rowOfLine fs)),
          tail.take (bs - goods.length - 1)) := by
      simp [lines2batch_loop, hl]
    simp only [Lines2BatchIter.next, htaken, lines2batch, hloop, hstep]
    exact ⟨by trivial, by trivial⟩
  · intro hm ht
    have hstep : lines2batch_loop fs
        (Except.ok l :: tail.take (bs - goods.length - 1))
        (Builder.ofRows (rs ++ goods.map (rowOfLine fs))) =
        (some e, (Builder.ofRows
            (rs ++ goods.map (rowOfLine fs))).append_first_eight l m,
          tail.take (bs - goods.length - 1)) := by
      simp [lines2batch_loop, hm, ht, Builder.append_first_eight]
    simp only [Lines2BatchIter.next, htaken, lines2batch, hloop, hstep]
    exact ⟨by trivial, by trivial⟩

/-- Witness for the amended C3: three concrete erroring calls, one per
error kind — a failed line read after one good line, a metadata-resolution
failure (the empty path) after one good line, and a modification-time
retrieval failure on the first line. -/
theorem error_call_retains_all_rows_witness :
    ((Lines2BatchIter.next fsW
      ⟨["a"].map Except.ok ++ Except.error "boom" :: [], schema, 2,
        Builder.ofRows []⟩).1 = some (Except.error "boom") ∧
    (Lines2BatchIter.next fsW
      ⟨["a"].map Except.ok ++ Except.error "boom" :: [], schema, 2,
        Builder.ofRows []⟩).2.bldr =
      Builder.ofRows ([] ++ ["a"].map (rowOfLine fsW))) ∧
    ((Lines2BatchIter.next fsW
      ⟨["a"].map Except.ok ++ Except.ok "" :: [], schema, 2,
        Builder.ofRows []⟩).1 = some (Except.error "no such file") ∧
    (Lines2BatchIter.next fsW
      ⟨["a"].map Except.ok ++ Except.ok "" :: [], schema, 2,
        Builder.ofRows []⟩).2.bldr =
      Builder.ofRows ([] ++ ["a"].map (rowOfLine fsW))) ∧
    ((Lines2BatchIter.next fsBad
      ⟨([] : List String).map Except.ok ++ Except.ok "a" :: [], schema, 1,
        Builder.ofRows []⟩).1 = some (Except.error "no mtime") ∧
    (Lines2BatchIter.next fsBad
      ⟨([] : List String).map Except.ok ++ Except.ok "a" :: [], schema, 1,
        Builder.ofRows []⟩).2.bldr =
      (Builder.ofRows
        ([] ++ ([] : List String).map (rowOfLine fsBad))).append_first_eight
          "a" mBad) :=
  ⟨(error_call_retains_all_rows fsW ["a"] "boom" "x" mW [] [] schema 2
      (fun l2 hl2 => by fin_cases hl2; exact fsW_resolvesOk (by decide))
      (by decide)).1,
    (error_call_retains_all_rows fsW ["a"] "no such file" "" mW [] []
      schema 2
      (fun l2 hl2 => by fin_cases hl2; exact fsW_resolvesOk (by decide))
      (by decide)).2.1 (by decide),
    (error_call_retains_all_rows fsBad [] "no mtime" "a" mBad [] []
      schema 1 (by simp) (by decide)).2.2 rfl rfl⟩

end N2S

namespace N2S

/-- C9: the schema consists of exactly nine columns, in order:
path (string, non-nullable), type (string, non-nullable), read_only
(boolean, non-nullable), mode (uint32, nullable), nlink (uint64, nullable),
len (uint64, non-nullable), uid (uint32, nullable), gid (uint32, nullable),
mtime (timestamp in seconds, nullable). -/
theorem schema_is_nine_fixed_columns :
    schema =
      [ ⟨"path", DataType.utf8, false⟩,
        ⟨"type", DataType.utf8, false⟩,
        ⟨"read_only", DataType.boolean, false⟩,
        ⟨"mode", DataType.uint32, true⟩,
        ⟨"nlink", DataType.uint64, true⟩,
        ⟨"len", DataType.uint64, false⟩,
        ⟨"uid", DataType.uint32, true⟩,
        ⟨"gid", DataType.uint32, true⟩,
        ⟨"mtime", DataType.timestampSecond, true⟩ ] := by
  rfl

end N2S
